import Mathlib

/-!
Verification development for the face-grouping dashboard
(`Razeen23/image-grouping-system`): a shallow embedding of its frontend
data model, API client and view logic, together with a model of the
backend grouping engine reconstructed from the specification (the backend
sources are not part of the checked tree).
-/

namespace ImageGrouping

/-! ## Data model (frontend/src/types/index.ts) -/

/-- `processing_status ∈ {pending, processing, completed, failed}`
(the string-literal union in `types/index.ts`). -/
inductive PStatus where
  | pending
  | processing
  | completed
  | failed
deriving DecidableEq, Repr

/-- The `Image` interface of `frontend/src/types/index.ts`. -/
structure Image where
  id : String
  filename : String
  storage_key : String
  storage_url : Option String
  mime_type : Option String
  file_size : Option Int
  width : Option Int
  height : Option Int
  uploaded_at : String
  processed_at : Option String
  processing_status : PStatus

/-- The `bounding_box` record inside the `Face` interface. -/
structure BoundingBox where
  x : ℚ
  y : ℚ
  width : ℚ
  height : ℚ

/-- The `Face` interface of `frontend/src/types/index.ts`; `confidence`
is declared there as `number | null` and `person_group_id` as
`string | null`. -/
structure Face where
  id : String
  image_id : String
  bounding_box : BoundingBox
  confidence : Option ℚ
  detected_at : String
  person_group_id : Option String

/-- The `PersonGroup` interface of `frontend/src/types/index.ts`;
`representative_face_id` is declared there as `string | null`. -/
structure PersonGroup where
  id : String
  name : Option String
  representative_face_id : Option String
  created_at : String
  updated_at : String

/-! ## API client (frontend/src/services/api.ts)

Each client function is embedded as the HTTP request (or list of
requests) it issues through the shared axios instance, whose `baseURL`
is `/api`. -/

inductive Method where
  | get
  | post
  | del
deriving DecidableEq, Repr

/-- A minimal JSON value type, enough for the request bodies the client
sends. -/
inductive Json where
  | str (s : String)
  | obj (fields : List (String × Json))

/-- One HTTP request as issued by the axios client: method, full URL
(after prefixing `baseURL`), optional JSON body, and query parameters. -/
structure Request where
  method : Method
  url : String
  body : Option Json
  params : List (String × Nat)

def apiBaseURL : String := "/api"

namespace imagesApi

/-- `imagesApi.list(skip = 0, limit = 100)`: GET `/images` with `skip`
and `limit` query parameters. -/
def list (skip : Nat := 0) (limit : Nat := 100) : Request :=
  ⟨Method.get, apiBaseURL ++ "/images", none, [("skip", skip), ("limit", limit)]⟩

/-- `imagesApi.retryProcessing(id)`: POST `/images/{id}/retry`. -/
def retryProcessing (id : String) : List Request :=
  [⟨Method.post, apiBaseURL ++ "/images/" ++ id ++ "/retry", none, []⟩]

end imagesApi

namespace facesApi

/-- `facesApi.list(skip = 0, limit = 100)`: GET `/faces` with `skip` and
`limit` query parameters. -/
def list (skip : Nat := 0) (limit : Nat := 100) : Request :=
  ⟨Method.get, apiBaseURL ++ "/faces", none, [("skip", skip), ("limit", limit)]⟩

end facesApi

namespace groupsApi

/-- `groupsApi.list(skip = 0, limit = 100)`: GET `/groups` with `skip`
and `limit` query parameters. -/
def list (skip : Nat := 0) (limit : Nat := 100) : Request :=
  ⟨Method.get, apiBaseURL ++ "/groups", none, [("skip", skip), ("limit", limit)]⟩

/-- `groupsApi.merge(sourceId, targetId)`: a single POST to
`/groups/{sourceId}/merge` with JSON body `{target_group_id: targetId}`. -/
def merge (sourceId targetId : String) : List Request :=
  [⟨Method.post, apiBaseURL ++ "/groups/" ++ sourceId ++ "/merge",
    some (Json.obj [("target_group_id", Json.str targetId)]), []⟩]

/-- `groupsApi.delete(id)`: a single DELETE to `/groups/{id}`. -/
def deleteGroup (id : String) : List Request :=
  [⟨Method.del, apiBaseURL ++ "/groups/" ++ id, none, []⟩]

end groupsApi

/-! ## View logic -/

/-- `ImageGrid`: `imagesApi.list(0, 100)` (the `images` query). -/
def ImageGrid.imagesQuery : Request := imagesApi.list 0 100

/-- `PeopleGrid`: `groupsApi.list(0, 100)` (the `groups` query). -/
def PeopleGrid.groupsQuery : Request := groupsApi.list 0 100

/-- `ImageDetail` (components/Images/ImageDetail.tsx): the "Retry
Processing" button is rendered exactly when
`processing_status === 'failed' || processing_status === 'pending'`. -/
def retryButtonRendered : PStatus → Bool
  | PStatus.failed => true
  | PStatus.pending => true
  | _ => false

/-- The `ImageDetail` variant with the redo buttons: a retry/redo
control invoking `retryMutation` is rendered exactly when the status is
`failed` or `pending` (Retry Processing) or `completed` (Redo Face
Detection). -/
def retryOrRedoRendered : PStatus → Bool
  | PStatus.failed => true
  | PStatus.pending => true
  | PStatus.completed => true
  | PStatus.processing => false

/-- The image query's `refetchInterval` callback: returns 2000 when the
fetched image's `processing_status` is `processing` or `pending`, and
`false` (modelled as `none`) otherwise, including when no data is
present. -/
def refetchInterval (data : Option Image) : Option Nat :=
  match data with
  | some img =>
    if img.processing_status = PStatus.processing ∨
       img.processing_status = PStatus.pending then some 2000
    else none
  | none => none

/-- JavaScript `Number.prototype.toFixed(2)` on a rational: round to the
nearest hundredth, ties to the larger value, and print with exactly two
decimal digits. -/
def toFixed2 (v : ℚ) : String :=
  let n : Int := Int.floor (v * 100 + 1/2)
  let sign := if n < 0 then "-" else ""
  let m := n.natAbs
  sign ++ toString (m / 100) ++ "." ++
    (if m % 100 < 10 then "0" else "") ++ toString (m % 100)

/-- `ImageDetail`'s face row: `face.confidence?.toFixed(2) || 'N/A'` —
`"N/A"` when `confidence` is null (optional chaining yields `undefined`),
otherwise the two-decimal rendering (falling back to `"N/A"` only on an
empty string, which `toFixed` never produces). -/
def faceConfidenceText (f : Face) : String :=
  match f.confidence with
  | none => "N/A"
  | some v =>
    let s := toFixed2 v
    if s = "" then "N/A" else s

/-- `ImageUpload.removeFile(index)`:
`prev.filter((_, i) => i !== index)` — keep exactly the elements whose
position differs from `index`. -/
def removeFile {α : Type} (index : Nat) (prev : List α) : List α :=
  (prev.enum.filter (fun p => p.1 ≠ index)).map Prod.snd

/-- Modelled from the spec: the backend read accessors ("list/get image,
…, list/get group") are paginated by the `skip`/`limit` query
parameters in the usual offset/limit fashion — skip the first `skip`
records and return at most `limit` of the rest. -/
def paginate {α : Type} (skip limit : Nat) (xs : List α) : List α :=
  (xs.drop skip).take limit

/-! ## Grouping engine

Modelled from the spec: the backend clustering core (Grouping Engine,
Group Maintenance, Reprocessing Coordinator) is not part of the checked
sources — only its frontend callers are — so it is reconstructed here
from §§3–4 of the specification. Embeddings are taken L2-normalized, as
the spec's §4.1 computes cosine similarity "on normalized vectors", so
cosine similarity is the dot product. -/

namespace Engine

/-- Modelled from the spec: one detection returned by the external
detector — embedding, confidence, detection time, owning image. -/
structure Detection where
  image_id : Nat
  emb : List ℚ
  conf : ℚ
  detected_at : Nat

/-- Modelled from the spec: a persisted Face row of the clustering
state; every stored face is assigned to a group (`gid`). -/
structure GFace where
  fid : Nat
  image_id : Nat
  emb : List ℚ
  conf : ℚ
  detected_at : Nat
  gid : Nat

/-- Modelled from the spec: a PersonGroup row — id and
`representative_face_id` (nullable in the record shape, as in the
frontend type). -/
structure Group where
  gid : Nat
  rep : Option Nat

/-- Modelled from the spec: the Embedding Store state — faces, groups
(in creation order) and fresh-id counters. -/
structure EState where
  faces : List GFace
  groups : List Group
  nextFaceId : Nat
  nextGroupId : Nat

def initState : EState := ⟨[], [], 0, 0⟩

/-- Dot product of two embedding vectors. -/
def dot (a b : List ℚ) : ℚ := (List.zipWith (fun x y => x * y) a b).sum

/-- Modelled from the spec: cosine similarity, computed on normalized
vectors, where it coincides with the dot product. -/
def cosSim (a b : List ℚ) : ℚ := dot a b

/-- `SIMILARITY_THRESHOLD`, default 0.6. -/
def SIMILARITY_THRESHOLD : ℚ := 3/5

/-- The embedding of a group's representative face, when the
representative exists in the store. -/
def repEmb (faces : List GFace) (g : Group) : Option (List ℚ) :=
  g.rep.bind (fun r => (faces.find? (fun f => f.fid = r)).map GFace.emb)

/-- The similarity candidates for an embedding: one `(group id,
similarity)` pair per group with a stored representative, in group
creation order. -/
def candidates (s : EState) (e : List ℚ) : List (Nat × ℚ) :=
  s.groups.filterMap (fun g => (repEmb s.faces g).map (fun r => (g.gid, cosSim e r)))

/-- The running-best combinator of the top-1 scan: a later candidate
displaces the current best only on strictly higher similarity. -/
def betterCand (b y : Nat × ℚ) : Nat × ℚ :=
  if b.2 < y.2 then y else b

/-- Modelled from the spec: the Similarity Index's top-1 query — the
candidate of maximal similarity, ties broken in favour of the earlier
group (strict improvement required to displace the current best). -/
def bestMatch (s : EState) (e : List ℚ) : Option (Nat × ℚ) :=
  match candidates s e with
  | [] => none
  | c :: cs => some (cs.foldl betterCand c)

/-- Create a new group with the new face as its initial representative
and assign the face to it. -/
def newGroupAssign (d : Detection) (s : EState) : EState :=
  { faces := s.faces ++
      [⟨s.nextFaceId, d.image_id, d.emb, d.conf, d.detected_at, s.nextGroupId⟩],
    groups := s.groups ++ [⟨s.nextGroupId, some s.nextFaceId⟩],
    nextFaceId := s.nextFaceId + 1,
    nextGroupId := s.nextGroupId + 1 }

/-- Modelled from the spec: the Grouping Engine's `assign` — join the
best-matching group when its similarity clears the threshold, otherwise
create a new group. -/
def assign (d : Detection) (s : EState) : EState :=
  match bestMatch s d.emb with
  | some (g, sim) =>
    if SIMILARITY_THRESHOLD ≤ sim then
      { s with
        faces := s.faces ++
          [⟨s.nextFaceId, d.image_id, d.emb, d.conf, d.detected_at, g⟩],
        nextFaceId := s.nextFaceId + 1 }
    else newGroupAssign d s
  | none => newGroupAssign d s

/-- Modelled from the spec: `merge(source, target)` — reassign every
face of the source group to the target, delete the source group, leave
the target's representative unchanged; a no-op when the source no longer
exists, the target does not exist, or the two coincide. -/
def mergeGroups (src tgt : Nat) (s : EState) : EState :=
  if src ≠ tgt ∧ s.groups.any (fun g => g.gid = src) ∧
     s.groups.any (fun g => g.gid = tgt) then
    { s with
      faces := s.faces.map (fun f => if f.gid = src then { f with gid := tgt } else f),
      groups := s.groups.filter (fun g => g.gid ≠ src) }
  else s

/-- The members of a group among a face list. -/
def membersOf (faces : List GFace) (gid : Nat) : List GFace :=
  faces.filter (fun f => f.gid = gid)

/-- The running-best combinator of representative choice: a later face
displaces the current choice on strictly higher confidence, or on equal
confidence and strictly earlier detection time. -/
def betterRep (b f : GFace) : GFace :=
  if b.conf < f.conf ∨ (b.conf = f.conf ∧ f.detected_at < b.detected_at)
  then f else b

/-- Modelled from the spec: representative choice on reassignment —
highest `confidence`, ties broken by earliest `detected_at`. -/
def pickBest : List GFace → Option GFace
  | [] => none
  | m :: rest => some (rest.foldl betterRep m)

/-- Modelled from the spec: step 1 of reprocessing — delete every face
of the image; a group losing its representative gets a new one chosen by
`pickBest` from its remaining members, and a group losing its last
member is deleted. -/
def removeImageFaces (image_id : Nat) (s : EState) : EState :=
  let rest := s.faces.filter (fun f => f.image_id ≠ image_id)
  { s with
    faces := rest,
    groups := s.groups.filterMap (fun g =>
      let ms := membersOf rest g.gid
      if ms.any (fun f => g.rep = some f.fid) then some g
      else (pickBest ms).map (fun f => { g with rep := some f.fid })) }

/-- Modelled from the spec: `delete_group(id)` — remove the group and
delete its faces; a no-op when the group does not exist. -/
def dropGroup (gid : Nat) (s : EState) : EState :=
  if s.groups.any (fun g => g.gid = gid) then
    { s with
      faces := s.faces.filter (fun f => f.gid ≠ gid),
      groups := s.groups.filter (fun g => g.gid ≠ gid) }
  else s

/-- Modelled from the spec: `reprocess(image_id)` — delete the image's
faces, then re-run `assign` on the fresh detector output in order. -/
def reprocess (image_id : Nat) (ds : List Detection) (s : EState) : EState :=
  ds.foldl (fun t d => assign d t) (removeImageFaces image_id s)

/-- One group-mutating operation of the public surface. -/
inductive Op where
  | assign (d : Detection)
  | merge (src tgt : Nat)
  | reprocess (image_id : Nat) (ds : List Detection)
  | deleteGroup (gid : Nat)

/-- Apply one operation to the store. -/
def step : Op → EState → EState
  | Op.assign d, s => assign d s
  | Op.merge a b, s => mergeGroups a b s
  | Op.reprocess iid ds, s => reprocess iid ds s
  | Op.deleteGroup g, s => dropGroup g s

/-- Apply a sequence of operations in order. -/
def run (ops : List Op) (s : EState) : EState :=
  ops.foldl (fun t op => step op t) s

/-- The spec's §3 invariant: no PersonGroup with zero member Faces. -/
def NoEmptyGroups (s : EState) : Prop :=
  ∀ g ∈ s.groups, ∃ f ∈ s.faces, f.gid = g.gid

/-- The spec's §3 invariant: every group's `representative_face_id` is
non-null and references a member face. -/
def RepValid (s : EState) : Prop :=
  ∀ g ∈ s.groups, ∃ f ∈ s.faces, g.rep = some f.fid ∧ f.gid = g.gid

/-- `(g, sim)` is a best match for `e`: it is a candidate and no
candidate has strictly higher similarity. -/
def IsBestMatch (s : EState) (e : List ℚ) (g : Nat) (sim : ℚ) : Prop :=
  (g, sim) ∈ candidates s e ∧ ∀ p ∈ candidates s e, p.2 ≤ sim

end Engine

/-! ## Theorems: view logic and API client -/

/-- C4: a retry/redo request is offered (and hence invoked) only for an
image whose status is `failed`, `pending` or `completed`; neither
`ImageDetail` variant renders the control while the status is
`processing`. -/
theorem retry_never_offered_while_processing :
    (∀ st : PStatus, retryButtonRendered st = true ↔
      (st = PStatus.failed ∨ st = PStatus.pending)) ∧
    (∀ st : PStatus, retryOrRedoRendered st = true ↔
      (st = PStatus.failed ∨ st = PStatus.pending ∨ st = PStatus.completed)) ∧
    retryButtonRendered PStatus.processing = false ∧
    retryOrRedoRendered PStatus.processing = false := by
  refine ⟨?_, ?_, rfl, rfl⟩ <;>
    intro st <;> cases st <;> simp [retryButtonRendered, retryOrRedoRendered]

/-- C5: every `Image` record's `processing_status` is exactly one of the
four values `pending`, `processing`, `completed`, `failed` (which are
pairwise distinct), and `processed_at` is a nullable timestamp: either
absent or a timestamp value. -/
theorem image_status_in_four_values (img : Image) :
    (img.processing_status = PStatus.pending ∨
     img.processing_status = PStatus.processing ∨
     img.processing_status = PStatus.completed ∨
     img.processing_status = PStatus.failed) ∧
    List.Pairwise (fun a b => a ≠ b)
      [PStatus.pending, PStatus.processing, PStatus.completed, PStatus.failed] ∧
    (img.processed_at = none ∨ ∃ t, img.processed_at = some t) := by
  refine ⟨?_, ?_, ?_⟩
  · cases img.processing_status <;> simp
  · decide
  · cases h : img.processed_at with
    | none => exact Or.inl rfl
    | some t => exact Or.inr ⟨t, rfl⟩

/-- C8: the image query's `refetchInterval` returns 2000 iff the fetched
image's status is `processing` or `pending`, and `false` (none) iff the
status is `completed` or `failed` or no data is present. -/
theorem refetchInterval_iff (d : Option Image) :
    (refetchInterval d = some 2000 ↔
      ∃ img, d = some img ∧
        (img.processing_status = PStatus.processing ∨
         img.processing_status = PStatus.pending)) ∧
    (refetchInterval d = none ↔
      (d = none ∨ ∃ img, d = some img ∧
        (img.processing_status = PStatus.completed ∨
         img.processing_status = PStatus.failed))) := by
  cases d with
  | none => simp [refetchInterval]
  | some img =>
    cases h : img.processing_status <;> simp [refetchInterval, h]

/-- C7: `groupsApi.merge(sourceId, targetId)` issues exactly one POST to
`/api/groups/{sourceId}/merge` with JSON body
`{target_group_id: targetId}`, and `groupsApi.delete(id)` issues exactly
one DELETE to `/api/groups/{id}`. -/
theorem merge_delete_request_shape (s t i : String) :
    groupsApi.merge s t =
      [⟨Method.post, "/api/groups/" ++ s ++ "/merge",
        some (Json.obj [("target_group_id", Json.str t)]), []⟩] ∧
    (groupsApi.merge s t).length = 1 ∧
    groupsApi.deleteGroup i = [⟨Method.del, "/api/groups/" ++ i, none, []⟩] ∧
    (groupsApi.deleteGroup i).length = 1 :=
  ⟨rfl, rfl, rfl, rfl⟩

/-- C9: every paginated list accessor sends `skip` and `limit` as query
parameters, defaulting to `skip = 0`, `limit = 100` when omitted; the
image grid and people grid queries are exactly `list(0, 100)`; and an
offset/limit-paginated accessor returns at most `limit` (here 100)
records. -/
theorem list_accessors_pagination (sk lim : Nat) (xs : List Image) :
    (imagesApi.list sk lim).params = [("skip", sk), ("limit", lim)] ∧
    (facesApi.list sk lim).params = [("skip", sk), ("limit", lim)] ∧
    (groupsApi.list sk lim).params = [("skip", sk), ("limit", lim)] ∧
    (imagesApi.list : Request) = imagesApi.list 0 100 ∧
    (facesApi.list : Request) = facesApi.list 0 100 ∧
    (groupsApi.list : Request) = groupsApi.list 0 100 ∧
    ImageGrid.imagesQuery = imagesApi.list 0 100 ∧
    PeopleGrid.groupsQuery = groupsApi.list 0 100 ∧
    (paginate 0 100 xs).length ≤ 100 := by
  refine ⟨rfl, rfl, rfl, rfl, rfl, rfl, rfl, rfl, ?_⟩
  simp [paginate]

/-- C6 fails on the code: the `Face` interface declares `confidence` as
`number | null`, so a well-formed Face record may carry a null
confidence while its `person_group_id` is non-null — `confidence` is a
nullable field besides `person_group_id`. -/
theorem face_confidence_null_counterexample :
    ∃ f : Face, f.confidence = none ∧ f.person_group_id = some "g1" :=
  ⟨⟨"f1", "i1", ⟨0, 0, 0, 0⟩, none, "t0", some "g1"⟩, rfl, rfl⟩

/-- C6 amended: `confidence` is nullable (`number | null`) in the Face
data model — `confidence` and `person_group_id` are its nullable
fields — and the image detail view renders a null confidence as
`"N/A"`, a non-null one with two decimals (e.g. 0.87 as `"0.87"`). -/
theorem face_confidence_nullable_display (a b c : String) (bb : BoundingBox)
    (pg : Option String) :
    faceConfidenceText ⟨a, b, bb, none, c, pg⟩ = "N/A" ∧
    faceConfidenceText ⟨a, b, bb, some (87/100), c, pg⟩ = "0.87" ∧
    (∃ f : Face, f.confidence = none) ∧
    (∃ f : Face, f.person_group_id = none) := by
  refine ⟨rfl, ?_, ⟨⟨a, b, bb, none, c, pg⟩, rfl⟩, ⟨⟨a, b, bb, none, c, none⟩, rfl⟩⟩
  have h : (⌊(87/100 : ℚ) * 100 + 1/2⌋ : ℤ) = 87 := by norm_num
  simp only [faceConfidenceText, toFixed2]
  rw [h]
  decide

/-- Every index of `enumFrom m l` is at least `m`, so filtering out a
smaller index keeps every element. -/
lemma filter_enumFrom_of_lt {α : Type} (l : List α) :
    ∀ (m n : Nat), n < m →
      ((List.enumFrom m l).filter (fun p => p.1 ≠ n)).map Prod.snd = l := by
  induction l with
  | nil => intro m n _; rfl
  | cons x xs ih =>
    intro m n hnm
    have hne : m ≠ n := (Nat.ne_of_lt hnm).symm
    simp [List.enumFrom, List.filter_cons, hne]
    simpa using ih (m + 1) n (Nat.lt_succ_of_lt hnm)

/-- Filtering index `n + i` out of `enumFrom n l` removes exactly the
element at position `i`. -/
lemma filter_enumFrom_removes_index {α : Type} (l : List α) :
    ∀ (n i : Nat),
      ((List.enumFrom n l).filter (fun p => p.1 ≠ n + i)).map Prod.snd
        = l.take i ++ l.drop (i + 1) := by
  induction l with
  | nil => intro n i; simp
  | cons x xs ih =>
    intro n i
    cases i with
    | zero =>
      have hdr : n = n + 0 := rfl
      simp [List.enumFrom, List.filter_cons, ← hdr]
      simpa using filter_enumFrom_of_lt xs (n + 1) n (Nat.lt_succ_self n)
    | succ j =>
      have hkeep : n ≠ n + (j + 1) := by omega
      have harg : n + (j + 1) = (n + 1) + j := by omega
      simp [List.enumFrom, List.filter_cons, hkeep]
      rw [harg]
      simpa using ih (n + 1) j

/-- C10: `removeFile(i)` yields the list with exactly the element at
position `i` removed and the rest in their original relative order; an
out-of-range index (`length ≤ i`, i.e. `i = length + k`) leaves the list
unchanged. -/
theorem removeFile_removes_exactly_index {α : Type} (l : List α) (i k : Nat) :
    removeFile i l = l.take i ++ l.drop (i + 1) ∧
    removeFile (l.length + k) l = l := by
  have base : ∀ j : Nat, removeFile j l = l.take j ++ l.drop (j + 1) := by
    intro j
    have h := filter_enumFrom_removes_index l 0 j
    simpa [removeFile, List.enum] using h
  refine ⟨base i, ?_⟩
  rw [base (l.length + k)]
  rw [List.take_of_length_le (by omega), List.drop_eq_nil_of_le (by omega)]
  simp

/-! ## Theorems: grouping engine -/

namespace Engine

/-- A fold with a binary choice that always returns one of its two
arguments ends on the seed or on a list element. -/
lemma foldl_choice_mem {β : Type} (pick : β → β → β)
    (hp : ∀ b y, pick b y = b ∨ pick b y = y) :
    ∀ (l : List β) (b : β), l.foldl pick b ∈ b :: l := by
  intro l
  induction l with
  | nil => intro b; exact List.mem_cons_self b []
  | cons y ys ih =>
    intro b
    rw [List.foldl_cons]
    rcases hp b y with h1 | h1 <;> rw [h1]
    · rcases List.mem_cons.mp (ih b) with he | he
      · rw [he]; exact List.mem_cons_self _ _
      · exact List.mem_cons_of_mem _ (List.mem_cons_of_mem _ he)
    · exact List.mem_cons_of_mem _ (ih y)

lemma betterCand_or (b y : Nat × ℚ) : betterCand b y = b ∨ betterCand b y = y := by
  unfold betterCand
  split
  · exact Or.inr rfl
  · exact Or.inl rfl

lemma betterRep_or (b f : GFace) : betterRep b f = b ∨ betterRep b f = f := by
  unfold betterRep
  split
  · exact Or.inr rfl
  · exact Or.inl rfl

/-- The top-1 fold dominates its seed and every list element. -/
lemma foldl_betterCand_le (cs : List (Nat × ℚ)) :
    ∀ c : Nat × ℚ, c.2 ≤ (cs.foldl betterCand c).2 ∧
      ∀ p ∈ cs, p.2 ≤ (cs.foldl betterCand c).2 := by
  induction cs with
  | nil => intro c; exact ⟨le_refl _, by simp⟩
  | cons y ys ih =>
    intro c
    rw [List.foldl_cons]
    obtain ⟨h1, h2⟩ := ih (betterCand c y)
    have hc : c.2 ≤ (betterCand c y).2 := by
      by_cases hlt : c.2 < y.2
      · simp only [betterCand, if_pos hlt]
        exact le_of_lt hlt
      · simp only [betterCand, if_neg hlt]
        exact le_refl _
    have hy : y.2 ≤ (betterCand c y).2 := by
      by_cases hlt : c.2 < y.2
      · simp only [betterCand, if_pos hlt]
        exact le_refl _
      · simp only [betterCand, if_neg hlt]
        exact le_of_not_lt hlt
    refine ⟨le_trans hc h1, ?_⟩
    intro p hp
    rcases List.mem_cons.mp hp with rfl | hp'
    · exact le_trans hy h1
    · exact h2 p hp'

/-- Correctness of the Similarity Index's top-1 query: the returned
pair is a candidate of maximal similarity. -/
lemma bestMatch_isBest (s : EState) (e : List ℚ) (g : Nat) (sim : ℚ)
    (h : bestMatch s e = some (g, sim)) : IsBestMatch s e g sim := by
  unfold bestMatch at h
  cases hc : candidates s e with
  | nil => rw [hc] at h; exact absurd h (by simp)
  | cons c cs =>
    rw [hc] at h
    have heq : cs.foldl betterCand c = (g, sim) := by
      injection h
    have hmem := foldl_choice_mem betterCand betterCand_or cs c
    obtain ⟨h1, h2⟩ := foldl_betterCand_le cs c
    rw [heq] at hmem h1 h2
    constructor
    · rw [hc]; exact hmem
    · intro p hp
      rw [hc] at hp
      rcases List.mem_cons.mp hp with rfl | hp'
      · exact h1
      · exact h2 p hp'

/-- The chosen representative is one of the group's members. -/
lemma pickBest_mem (ms : List GFace) (f : GFace) (h : pickBest ms = some f) :
    f ∈ ms := by
  cases ms with
  | nil => exact absurd h (by simp [pickBest])
  | cons m rest =>
    unfold pickBest at h
    have heq : rest.foldl betterRep m = f := by injection h
    have hmem := foldl_choice_mem betterRep betterRep_or rest m
    rw [heq] at hmem
    exact hmem

/-- `assign` either creates a new group (no candidate, or best
similarity below the threshold) or appends the face to an existing
group, leaving the groups untouched. -/
lemma assign_cases (d : Detection) (s : EState) :
    assign d s = newGroupAssign d s ∨
    ∃ g0 : Nat, assign d s =
      { s with
        faces := s.faces ++
          [⟨s.nextFaceId, d.image_id, d.emb, d.conf, d.detected_at, g0⟩],
        nextFaceId := s.nextFaceId + 1 } := by
  unfold assign
  cases hb : bestMatch s d.emb with
  | none => exact Or.inl rfl
  | some p =>
    obtain ⟨g0, sim0⟩ := p
    by_cases ht : SIMILARITY_THRESHOLD ≤ sim0
    · exact Or.inr ⟨g0, by simp [ht]⟩
    · exact Or.inl (by simp [ht])

lemma RepValid_newGroupAssign (d : Detection) (s : EState) (h : RepValid s) :
    RepValid (newGroupAssign d s) := by
  intro g hg
  unfold newGroupAssign at hg
  rcases List.mem_append.mp hg with hgs | hnew
  · obtain ⟨f, hf, hrep, hgid⟩ := h g hgs
    exact ⟨f, List.mem_append_left _ hf, hrep, hgid⟩
  · have hg' : g = ⟨s.nextGroupId, some s.nextFaceId⟩ := by
      simpa using hnew
    refine ⟨⟨s.nextFaceId, d.image_id, d.emb, d.conf, d.detected_at, s.nextGroupId⟩,
      List.mem_append_right _ (List.mem_singleton.mpr rfl), ?_, ?_⟩
    · rw [hg']
    · rw [hg']

lemma RepValid_assign (d : Detection) (s : EState) (h : RepValid s) :
    RepValid (assign d s) := by
  rcases assign_cases d s with heq | ⟨g0, heq⟩
  · rw [heq]; exact RepValid_newGroupAssign d s h
  · rw [heq]
    intro g hg
    obtain ⟨f, hf, hrep, hgid⟩ := h g hg
    exact ⟨f, List.mem_append_left _ hf, hrep, hgid⟩

lemma RepValid_merge (a b : Nat) (s : EState) (h : RepValid s) :
    RepValid (mergeGroups a b s) := by
  unfold mergeGroups
  split
  · intro g hg
    rw [List.mem_filter] at hg
    obtain ⟨hgs, hga⟩ := hg
    have hga' : g.gid ≠ a := by simpa using hga
    obtain ⟨f, hf, hrep, hgid⟩ := h g hgs
    have himg : (fun f => if f.gid = a then { f with gid := b } else f) f = f := by
      have hne : ¬ f.gid = a := by rw [hgid]; exact hga'
      simp only [if_neg hne]
    exact ⟨f, himg ▸ List.mem_map_of_mem _ hf, hrep, hgid⟩
  · exact h

lemma RepValid_removeImageFaces (iid : Nat) (s : EState) :
    RepValid (removeImageFaces iid s) := by
  intro g hg
  unfold removeImageFaces at hg ⊢
  simp only [List.mem_filterMap] at hg
  obtain ⟨g0, hg0, hfn⟩ := hg
  by_cases hany : (membersOf (s.faces.filter (fun f => f.image_id ≠ iid)) g0.gid).any
      (fun f => g0.rep = some f.fid) = true
  · rw [if_pos hany] at hfn
    have hgg : g = g0 := by injection hfn with h'; exact h'.symm
    obtain ⟨f, hfm, hfr⟩ := List.any_eq_true.mp hany
    have hfr' : g0.rep = some f.fid := by simpa using hfr
    have hfm' := List.mem_filter.mp hfm
    obtain ⟨hfrest, hfgid⟩ := hfm'
    refine ⟨f, hfrest, ?_, ?_⟩
    · rw [hgg]; exact hfr'
    · rw [hgg]; simpa using hfgid
  · rw [if_neg hany] at hfn
    obtain ⟨f, hpick, hgeq⟩ := Option.map_eq_some'.mp hfn
    have hfm := pickBest_mem _ f hpick
    have hfm' := List.mem_filter.mp hfm
    obtain ⟨hfrest, hfgid⟩ := hfm'
    refine ⟨f, hfrest, ?_, ?_⟩
    · rw [← hgeq]
    · rw [← hgeq]; simpa using hfgid

lemma RepValid_dropGroup (gid0 : Nat) (s : EState) (h : RepValid s) :
    RepValid (dropGroup gid0 s) := by
  unfold dropGroup
  split
  · intro g hg
    rw [List.mem_filter] at hg
    obtain ⟨hgs, hgne⟩ := hg
    have hgne' : g.gid ≠ gid0 := by simpa using hgne
    obtain ⟨f, hf, hrep, hgid⟩ := h g hgs
    refine ⟨f, ?_, hrep, hgid⟩
    rw [List.mem_filter]
    refine ⟨hf, ?_⟩
    simp only [decide_eq_true_eq]
    rw [hgid]
    exact hgne'
  · exact h

lemma RepValid_foldl_assign (ds : List Detection) :
    ∀ s : EState, RepValid s →
      RepValid (ds.foldl (fun t d => assign d t) s) := by
  induction ds with
  | nil => intro s h; exact h
  | cons d ds ih =>
    intro s h
    rw [List.foldl_cons]
    exact ih _ (RepValid_assign d s h)

lemma RepValid_step (op : Op) (s : EState) (h : RepValid s) :
    RepValid (step op s) := by
  cases op with
  | assign d => exact RepValid_assign d s h
  | merge a b => exact RepValid_merge a b s h
  | reprocess iid ds =>
    exact RepValid_foldl_assign ds _ (RepValid_removeImageFaces iid s)
  | deleteGroup g => exact RepValid_dropGroup g s h

lemma RepValid_run (ops : List Op) :
    ∀ s : EState, RepValid s → RepValid (run ops s) := by
  induction ops with
  | nil => intro s h; exact h
  | cons op ops ih =>
    intro s h
    exact ih _ (RepValid_step op s h)

lemma RepValid_init : RepValid initState := by
  intro g hg
  exact absurd hg (by simp [initState])

lemma NoEmpty_of_RepValid (s : EState) (h : RepValid s) : NoEmptyGroups s := by
  intro g hg
  obtain ⟨f, hf, _, hgid⟩ := h g hg
  exact ⟨f, hf, hgid⟩

/-- C1: the Grouping Engine's assignment rule — when the best cosine
similarity to any existing group representative is at least
`SIMILARITY_THRESHOLD`, the new Face joins that best-matching group
(groups unchanged, the face appended with that group's id); otherwise
(best similarity below the threshold, or no group exists) exactly one
new PersonGroup is created, with the new Face as its initial
representative, and the Face is assigned to it. -/
theorem assign_rule (s : EState) (d : Detection) (g : Nat) (sim : ℚ) :
    (bestMatch s d.emb = some (g, sim) →
      IsBestMatch s d.emb g sim ∧
      (SIMILARITY_THRESHOLD ≤ sim →
        (assign d s).groups = s.groups ∧
        (assign d s).faces = s.faces ++
          [⟨s.nextFaceId, d.image_id, d.emb, d.conf, d.detected_at, g⟩]) ∧
      (sim < SIMILARITY_THRESHOLD → assign d s = newGroupAssign d s)) ∧
    (bestMatch s d.emb = none → assign d s = newGroupAssign d s) ∧
    (newGroupAssign d s).groups = s.groups ++ [⟨s.nextGroupId, some s.nextFaceId⟩] ∧
    (newGroupAssign d s).faces = s.faces ++
      [⟨s.nextFaceId, d.image_id, d.emb, d.conf, d.detected_at, s.nextGroupId⟩] := by
  refine ⟨?_, ?_, rfl, rfl⟩
  · intro hb
    refine ⟨bestMatch_isBest s d.emb g sim hb, ?_, ?_⟩
    · intro ht
      unfold assign
      rw [hb]
      simp [ht]
    · intro hlt
      unfold assign
      rw [hb]
      simp [not_le.mpr hlt]
  · intro hb
    unfold assign
    rw [hb]

/-- Witness for C1: a store with one group (representative embedding
`[1, 0]`); the detection `[4/5, 3/5]` has best similarity 4/5 ≥ 3/5, so
it joins group 0 and no group is created. -/
theorem assign_rule_witness :
    IsBestMatch ⟨[⟨0, 1, [1, 0], 9/10, 0, 0⟩], [⟨0, some 0⟩], 1, 1⟩ [4/5, 3/5] 0 (4/5) ∧
    (assign ⟨2, [4/5, 3/5], 1/2, 1⟩
        ⟨[⟨0, 1, [1, 0], 9/10, 0, 0⟩], [⟨0, some 0⟩], 1, 1⟩).groups = [⟨0, some 0⟩] ∧
    (assign ⟨2, [4/5, 3/5], 1/2, 1⟩
        ⟨[⟨0, 1, [1, 0], 9/10, 0, 0⟩], [⟨0, some 0⟩], 1, 1⟩).faces
      = [⟨0, 1, [1, 0], 9/10, 0, 0⟩] ++ [⟨1, 2, [4/5, 3/5], 1/2, 1, 0⟩] := by
  have hb : bestMatch ⟨[⟨0, 1, [1, 0], 9/10, 0, 0⟩], [⟨0, some 0⟩], 1, 1⟩ [4/5, 3/5]
      = some (0, 4/5) := by
    norm_num [bestMatch, candidates, repEmb, cosSim, dot, List.filterMap, List.find?]
  have h := (assign_rule ⟨[⟨0, 1, [1, 0], 9/10, 0, 0⟩], [⟨0, some 0⟩], 1, 1⟩
      ⟨2, [4/5, 3/5], 1/2, 1⟩ 0 (4/5)).1 hb
  have hth : SIMILARITY_THRESHOLD ≤ (4/5 : ℚ) := by norm_num [SIMILARITY_THRESHOLD]
  obtain ⟨hbest, hjoin, _⟩ := h
  obtain ⟨hg, hf⟩ := hjoin hth
  exact ⟨hbest, hg, hf⟩

/-- C2: after any sequence of assign / merge / reprocess / delete-group
operations from the initial (empty) store, no PersonGroup with zero
member Faces exists — since every prefix of a sequence is itself a
sequence, the invariant holds after each operation completes. -/
theorem no_empty_groups_reachable (ops : List Op) :
    NoEmptyGroups (run ops initState) :=
  NoEmpty_of_RepValid _ (RepValid_run ops initState RepValid_init)

/-- C3: in every reachable store state, every PersonGroup's
`representative_face_id` is non-null and references a Face whose
`person_group_id` equals the group's id. -/
theorem representative_references_member (ops : List Op) :
    RepValid (run ops initState) ∧
    ∀ g ∈ (run ops initState).groups, g.rep ≠ none := by
  have h := RepValid_run ops initState RepValid_init
  refine ⟨h, ?_⟩
  intro g hg
  obtain ⟨f, _, hrep, _⟩ := h g hg
  rw [hrep]
  simp

end Engine

end ImageGrouping
